import Mathlib

/-
Verification of the dictionary/thesaurus batch builder (src/build.py).

The SQLite store (create_tables, lines 16-79) is embedded as lists of rows,
one list per table; `INTEGER PRIMARY KEY` rowids are modelled by allocating
`max existing id + 1`, which is SQLite's allocation rule for rowid tables
without deletes.  The connection's transaction state is modelled by a pair
of stores: `committed` (what is durable) and `current` (committed plus the
open transaction's uncommitted writes); `conn.commit()` copies current to
committed, and closing the connection (or process exit) discards the open
transaction, reverting to `committed`.  Python's sqlite3 default
(deferred) transaction handling performs no rollback when an exception
escapes mid-write, so the partial writes stay in `current`.

Fallible Python code is modelled with `Except`/`Option`: a raised
exception inside `insert_lemma_entries` returns `Except.error` carrying
the partial (uncommitted) store.  JSON result lines are modelled by the
`Line` type: `Line.badJson` stands for any line whose processing fails
before `task_id` is assigned (unparsable JSON, or a top-level value that
is not an object); `ResultRecord` models a parsed object, with `Option`
fields for the dictionary accesses that can raise (`content = none`
covers both a missing response/body/choices/message/content path and a
content string that is not valid JSON / not a JSON object, all of which
raise after `task_id` was assigned and are caught by the per-line
handler).

The prompt text built by build_prompt and the schema/index DDL of
create_tables are not embedded: no claim depends on the prompt's wording,
and `CREATE TABLE IF NOT EXISTS` only shapes the store whose content the
row lists embed.  Python's `str.lower`/`str.strip`/`str.split`/`int` are
modelled by the character-list functions pyLower/pyStrip/pySplitDash and
an ASCII digit parser; the inputs in play (lemma texts, "task-<i>"
identifiers) are ASCII, where these agree with Python.
-/

/-- Row of the `lemmas` table: lemma_id INTEGER PRIMARY KEY, lemma TEXT
UNIQUE, input_part_of_speech CHAR(1). -/
structure LemmaRow where
  lemma_id : Nat
  lemma_text : String
  input_part_of_speech : String
deriving DecidableEq, Repr

/-- Row of the `words` table: word_id INTEGER PRIMARY KEY, word TEXT
UNIQUE, lemma_id INTEGER REFERENCES lemmas. -/
structure WordRow where
  word_id : Nat
  word : String
  lemma_id : Nat
deriving DecidableEq, Repr

/-- Row of the `entries` table. -/
structure EntryRow where
  entry_id : Nat
  lemma_id : Nat
  part_of_speech : String
  order_index : Nat
deriving DecidableEq, Repr

/-- Row of the `definitions`, `synonyms` or `antonyms` table (they share
one shape: id, entry_id, text column, order_index). -/
structure ChildRow where
  child_id : Nat
  entry_id : Nat
  text : String
  order_index : Nat
deriving DecidableEq, Repr

/-- The six relations created by create_tables (src/build.py lines 16-79),
as lists of rows in insertion order. -/
structure DB where
  lemmas : List LemmaRow
  words : List WordRow
  entries : List EntryRow
  definitions : List ChildRow
  synonyms : List ChildRow
  antonyms : List ChildRow
deriving DecidableEq, Repr

def DB.empty : DB := ⟨[], [], [], [], [], []⟩

/-- SQLite rowid allocation for a rowid table without deletes:
one more than the largest existing rowid (1 on an empty table). -/
def nextId (ids : List Nat) : Nat := ids.foldr max 0 + 1

/-- Line 86: `INSERT OR IGNORE INTO lemmas (lemma, input_part_of_speech)`.
The UNIQUE constraint on `lemma` makes the insert a no-op when a row with
that text exists. -/
def lemmaInsertOrIgnore (db : DB) (lem pos : String) : DB :=
  if (db.lemmas.find? (fun r => r.lemma_text == lem)).isSome then db
  else { db with lemmas :=
    db.lemmas ++ [⟨nextId (db.lemmas.map (fun r => r.lemma_id)), lem, pos⟩] }

/-- Lines 87-88: `SELECT lemma_id FROM lemmas WHERE lemma = ?` followed by
`fetchone()`; `none` models `fetchone()` returning no row (in which case
line 88 would raise). -/
def lookupLemmaId (db : DB) (lem : String) : Option Nat :=
  (db.lemmas.find? (fun r => r.lemma_text == lem)).map (fun r => r.lemma_id)

/-- The lemma upsert of lines 86-88 (the spec's `upsert_lemma_record`):
insert-or-ignore followed by the id lookup. -/
def upsert_lemma_record (db : DB) (lem pos : String) : DB × Option Nat :=
  let db1 := lemmaInsertOrIgnore db lem pos
  (db1, lookupLemmaId db1 lem)

/-- Line 92: `INSERT OR IGNORE INTO words (word, lemma_id)`; the UNIQUE
constraint on `word` makes this a no-op when the word text exists for any
lemma. -/
def wordInsertOrIgnore (db : DB) (w : String) (lid : Nat) : DB :=
  if (db.words.find? (fun r => r.word == w)).isSome then db
  else { db with words :=
    db.words ++ [⟨nextId (db.words.map (fun r => r.word_id)), w, lid⟩] }

/-- One element of the API response's `entries` array.  Each field is the
corresponding dictionary key; `none` models the key being absent, so that
the `entry['...']` subscript of lines 96/102/107/112 raises KeyError. -/
structure EntryRec where
  part_of_speech : Option String
  definitions : Option (List String)
  synonyms : Option (List String)
  antonyms : Option (List String)
deriving DecidableEq, Repr

/-- All four keys the code subscripts are present, i.e. inserting this
entry raises no KeyError. -/
def EComplete (e : EntryRec) : Bool :=
  e.part_of_speech.isSome && e.definitions.isSome &&
    e.synonyms.isSome && e.antonyms.isSome

/-- The `enumerate(...)` child-insert loops of lines 102-114: append one
row per item, order_index counting up from `j`. -/
def insertChildRows (rows : List ChildRow) (eid : Nat) (j : Nat) :
    List String → List ChildRow
  | [] => rows
  | t :: ts =>
      insertChildRows
        (rows ++ [⟨nextId (rows.map (fun r => r.child_id)), eid, t, j⟩])
        eid (j + 1) ts

/-- Body of the entries loop (lines 95-114) for one entry at order index
`k`: subscript part_of_speech (KeyError if absent), insert the entry row,
then subscript and insert definitions, synonyms, antonyms in that order.
`Except.error` carries the store as left by the raising statement. -/
def insertOneEntry (db : DB) (lid k : Nat) (e : EntryRec) : Except DB DB :=
  match e.part_of_speech with
  | none => Except.error db
  | some p =>
      let eid := nextId (db.entries.map (fun r => r.entry_id))
      let db1 := { db with entries := db.entries ++ [⟨eid, lid, p, k⟩] }
      match e.definitions with
      | none => Except.error db1
      | some ds =>
          let db2 := { db1 with definitions := insertChildRows db1.definitions eid 0 ds }
          match e.synonyms with
          | none => Except.error db2
          | some ss =>
              let db3 := { db2 with synonyms := insertChildRows db2.synonyms eid 0 ss }
              match e.antonyms with
              | none => Except.error db3
              | some as_ =>
                  Except.ok { db3 with antonyms := insertChildRows db3.antonyms eid 0 as_ }

/-- The `for entry_index, entry in enumerate(entries)` loop of line 95,
starting at order index `k`. -/
def insertEntriesLoop (db : DB) (lid : Nat) (k : Nat) :
    List EntryRec → Except DB DB
  | [] => Except.ok db
  | e :: es =>
      match insertOneEntry db lid k e with
      | Except.error d => Except.error d
      | Except.ok d => insertEntriesLoop d lid (k + 1) es

/-- insert_lemma_entries (lines 82-116) acting on the connection's current
(in-transaction) store, without the final commit: upsert the lemma, look
up its id, insert-or-ignore each word form, then insert the entries with
their children.  `Except.error` is a raised exception, carrying the
partial uncommitted store. -/
def insert_lemma_entries_db (db : DB) (lem pos : String)
    (word_forms : List String) (ents : List EntryRec) : Except DB DB :=
  match lookupLemmaId (lemmaInsertOrIgnore db lem pos) lem with
  | none => Except.error (lemmaInsertOrIgnore db lem pos)
  | some lid =>
      insertEntriesLoop
        (word_forms.foldl (fun d w => wordInsertOrIgnore d w lid)
          (lemmaInsertOrIgnore db lem pos))
        lid 0 ents

/-- A sqlite3 connection in Python's default (deferred) transaction mode:
`committed` is the durable store, `current` is committed plus the open
transaction's writes.  No rollback happens when an exception escapes. -/
structure Conn where
  committed : DB
  current : DB
deriving DecidableEq, Repr

/-- insert_lemma_entries including its `conn.commit()` on line 116: on
success the transaction commits (committed := current); on a raised
exception nothing is committed and the partial writes stay pending in the
connection's open transaction.  The Bool reports success. -/
def insert_lemma_entries (conn : Conn) (lem pos : String)
    (word_forms : List String) (ents : List EntryRec) : Conn × Bool :=
  match insert_lemma_entries_db conn.current lem pos word_forms ents with
  | Except.ok d => (⟨d, d⟩, true)
  | Except.error d => (⟨conn.committed, d⟩, false)

/-- Python `str.lower()`, as a per-character map.  Agrees with Python on
the ASCII inputs in play. -/
def pyLower (s : String) : String := String.mk (s.data.map Char.toLower)

/-- Python `str.strip()`: drop whitespace from both ends. -/
def pyStrip (s : String) : String :=
  String.mk (((s.data.dropWhile Char.isWhitespace).reverse.dropWhile
    Char.isWhitespace).reverse)

/-- Python `str.split("-")` on the character list: split at every `-`;
the result is always nonempty ("" splits to [""]). -/
def splitDashChars : List Char → List (List Char)
  | [] => [[]]
  | c :: cs =>
      match splitDashChars cs with
      | [] => [[]]
      | h :: t => if c = '-' then [] :: h :: t else (c :: h) :: t

def pySplitDash (s : String) : List String :=
  (splitDashChars s.data).map String.mk

def digitsToNat (cs : List Char) : Nat :=
  cs.foldl (fun n c => n * 10 + (c.toNat - 48)) 0

/-- Python `int(s)` restricted to what can reach line 253: the argument is
the last `-`-separated piece of the custom_id so it cannot contain `-`;
we model surrounding-whitespace stripping, an optional leading `+`, and a
nonempty run of ASCII digits (numeric-grouping underscores and non-ASCII
digits are not modelled; no input in the claims uses them). -/
def parsePyNat (s : String) : Option Nat :=
  match (pyStrip s).data with
  | '+' :: rest =>
      if rest.length != 0 && rest.all Char.isDigit then
        some (digitsToNat rest)
      else none
  | t =>
      if t.length != 0 && t.all Char.isDigit then
        some (digitsToNat t)
      else none

/-- Line 253: `idx = int(task_id.split("-")[-1])`; `none` models the
ValueError raised by `int`. -/
def parseTaskIdx (task_id : String) : Option Nat :=
  parsePyNat (((pySplitDash task_id).getLast?).getD "")

/-- The API response JSON carried in a result line's content, as consumed
by lines 256-262.  Fields are `none` when the key is absent; the code
reads all three through `.get` with a default, so absence never raises
here. -/
structure ApiData where
  lemma_text : Option String
  word_forms : Option (List String)
  entries : Option (List EntryRec)
deriving DecidableEq, Repr

/-- A parsed result line (a JSON object).  `custom_id = none` models a
missing key (the `.get` default makes it `""`); `content = none` models
every failure between the custom_id read and a parsed response object:
missing response/body/choices/message/content path, content that is not
valid JSON, or content that is not a JSON object.  All of those raise
after `task_id` was assigned and are caught by the per-line handler. -/
structure ResultRecord where
  custom_id : Option String
  content : Option ApiData
deriving DecidableEq, Repr

/-- One line of the results file.  `badJson` is any line whose processing
raises before line 252 assigns `task_id`: unparsable JSON, or a top-level
JSON value that is not an object (so `obj.get` raises). -/
inductive Line where
  | badJson
  | record (r : ResultRecord)
deriving DecidableEq, Repr

/-- Outcome of a `process` run that reached the per-line loop:
`completed` is the normal path (loop finished, conn.close() rolled back
any pending transaction, exit status 0); `aborted` is an uncaught
exception escaping the loop (traceback, nonzero exit status) - either way
the store that survives is the committed one. -/
inductive RunOutcome where
  | completed (db : DB)
  | aborted (db : DB)
deriving DecidableEq, Repr

def RunOutcome.storedDb : RunOutcome → DB
  | completed d => d
  | aborted d => d

def RunOutcome.isAborted : RunOutcome → Bool
  | completed _ => false
  | aborted _ => true

/-- The body of the per-line loop (lines 249-265).  `lastTask` is the
value the local variable `task_id` holds from an earlier iteration
(`none` if it was never assigned).  Returns `none` when the iteration
raises an exception that escapes the handler: that happens exactly on a
`badJson` line with `task_id` never yet assigned, because the handler's
diagnostic itself reads `task_id` and raises UnboundLocalError.
Otherwise returns the connection and the new `task_id` value. -/
def processRecord (conn : Conn) (pairs : List (String × String))
    (r : ResultRecord) : Conn × Option String :=
  match parseTaskIdx (r.custom_id.getD "") with
  | none => (conn, some (r.custom_id.getD ""))
  | some idx =>
      match r.content with
      | none => (conn, some (r.custom_id.getD ""))
      | some d =>
          match pairs.get? idx with
          | none => (conn, some (r.custom_id.getD ""))
          | some lp =>
              if pyLower (d.lemma_text.getD "") == lp.1 then
                ((insert_lemma_entries conn lp.1 lp.2
                    (d.word_forms.getD []) (d.entries.getD [])).1,
                 some (r.custom_id.getD ""))
              else (conn, some (r.custom_id.getD ""))

def processLine (conn : Conn) (pairs : List (String × String))
    (lastTask : Option String) : Line → Option (Conn × Option String)
  | Line.badJson =>
      match lastTask with
      | none => none
      | some t => some (conn, some t)
  | Line.record r => some (processRecord conn pairs r)

/-- The per-line loop of lines 248-265 followed by `conn.close()`
(line 266), which rolls back any transaction left open.  An escaped
exception aborts the run; the committed store survives either way. -/
def processLines (conn : Conn) (pairs : List (String × String))
    (lastTask : Option String) : List Line → RunOutcome
  | [] => RunOutcome.completed conn.committed
  | l :: ls =>
      match processLine conn pairs lastTask l with
      | none => RunOutcome.aborted conn.committed
      | some p => processLines p.1 pairs p.2 ls

/-- The result-processing phase of process_batch, from the point where the
results file, the reread pair list and the database connection are in
hand: run the loop over the lines starting with no open transaction and
`task_id` unassigned. -/
def processRun (db0 : DB) (pairs : List (String × String))
    (lines : List Line) : RunOutcome :=
  processLines ⟨db0, db0⟩ pairs none lines

/-- The input file `lemmas.tsv` as a list of tab-separated rows (the
first row is the header), or absent. -/
inductive TsvFile where
  | absent
  | present (rows : List (List String))
deriving DecidableEq, Repr

/-- Lines 163 and 238 (identical in submit and process): keep the rows
with at least two fields, in order, taking the first two fields stripped
and lowercased. -/
def readLemmaPairs (dataRows : List (List String)) : List (String × String) :=
  (dataRows.filter (fun r => decide (2 ≤ r.length))).map
    (fun r => (pyLower (pyStrip (r.getD 0 "")), pyLower (pyStrip (r.getD 1 ""))))

/-- One task of the batch tasks file (lines 169-185): the deterministic
identifier `task-<idx>` and the pair the prompt is built from.  The
prompt text and the fixed request fields are not embedded; no claim
depends on them. -/
structure BatchTask where
  custom_id : String
  lemma_text : String
  input_pos : String
deriving DecidableEq, Repr

/-- Outcome of submit_batch.  `fileError`: lemmas.tsv absent, printed
error, sys.exit(1), no network call.  `headerError`: the file has no rows
at all, so `next(reader)` raises StopIteration uncaught - abort before
any network call.  `submitted tasks`: the tasks file was written and the
two network calls (file upload, batch creation) were made. -/
inductive SubmitOutcome where
  | fileError
  | headerError
  | submitted (tasks : List BatchTask)
deriving DecidableEq, Repr

def SubmitOutcome.makesNetworkCalls : SubmitOutcome → Bool
  | submitted _ => true
  | _ => false

/-- The `for idx, (lemma, input_pos) in enumerate(lemma_pos_pairs)` task
construction of lines 168-185, position counting up from `i`. -/
def mkTasks : Nat → List (String × String) → List BatchTask
  | _, [] => []
  | i, p :: ps => ⟨"task-" ++ toString i, p.1, p.2⟩ :: mkTasks (i + 1) ps

/-- submit_batch (lines 157-207): read the TSV (absent → exit 1 before
any network call; no header row → uncaught StopIteration before any
network call), build the task list, then upload it and create the batch
job - the network calls are made whether or not the task list is
empty. -/
def submit_batch (input : TsvFile) : SubmitOutcome :=
  match input with
  | TsvFile.absent => SubmitOutcome.fileError
  | TsvFile.present [] => SubmitOutcome.headerError
  | TsvFile.present (_ :: dataRows) =>
      SubmitOutcome.submitted (mkTasks 0 (readLemmaPairs dataRows))

/-- process_batch (lines 210-267) from the point where the job is
complete and the results are downloaded (`lines`), as a function of the
input TSV: reread it the same way submit did (lines 234-241; absent →
exit 1, no rows → uncaught StopIteration - `none` covers both, nothing is
processed), then run the per-line loop against an initial store `db0`. -/
def process_batch (input : TsvFile) (db0 : DB) (lines : List Line) :
    Option RunOutcome :=
  match input with
  | TsvFile.absent => none
  | TsvFile.present [] => none
  | TsvFile.present (_ :: dataRows) =>
      some (processRun db0 (readLemmaPairs dataRows) lines)

/-
Observation views of the store, used to compare stored data up to the
surrogate rowids (which depend on insertion order).  They read only the
natural-language content: lemma texts, the part-of-speech stored with
them, which lemma text a word form is attached to, and for each lemma the
stored entries with their order indices and their children's texts and
order indices, in table order.
-/

/-- The view of one entry row: its part of speech, its order index, and
the (text, order_index) pairs of its definition, synonym and antonym
rows, in table order. -/
abbrev EntryViewT :=
  String × Nat × List (String × Nat) × List (String × Nat) × List (String × Nat)

def entryView (db : DB) (er : EntryRow) : EntryViewT :=
  (er.part_of_speech, er.order_index,
   (db.definitions.filter (fun c => c.entry_id == er.entry_id)).map
     (fun c => (c.text, c.order_index)),
   (db.synonyms.filter (fun c => c.entry_id == er.entry_id)).map
     (fun c => (c.text, c.order_index)),
   (db.antonyms.filter (fun c => c.entry_id == er.entry_id)).map
     (fun c => (c.text, c.order_index)))

/-- The part of speech stored with a lemma text, if present. -/
def lemmaPosView (db : DB) (t : String) : Option String :=
  (db.lemmas.find? (fun r => r.lemma_text == t)).map
    (fun r => r.input_part_of_speech)

/-- The lemma text a word form is attached to, if the word is stored. -/
def ownerView (db : DB) (w : String) : Option String :=
  (db.words.find? (fun r => r.word == w)).bind (fun wr =>
    (db.lemmas.find? (fun r => r.lemma_id == wr.lemma_id)).map
      (fun r => r.lemma_text))

/-- The stored entries of a lemma text (table order), if the lemma is
stored. -/
def entriesView (db : DB) (t : String) : Option (List EntryViewT) :=
  (db.lemmas.find? (fun r => r.lemma_text == t)).map (fun lr =>
    (db.entries.filter (fun er => er.lemma_id == lr.lemma_id)).map
      (entryView db))

/-- The full id-free view of a store. -/
@[ext]
structure AbsDB where
  pos : String → Option String
  owner : String → Option String
  ents : String → Option (List EntryViewT)

def viewOf (db : DB) : AbsDB :=
  ⟨lemmaPosView db, ownerView db, entriesView db⟩

/-- `(text, order_index)` pairs a child list produces, indices counting
up from `j`. -/
def childView (j : Nat) : List String → List (String × Nat)
  | [] => []
  | s :: ss => (s, j) :: childView (j + 1) ss

/-- The view an entry record produces when inserted at order index `k`. -/
def mkEntryView (k : Nat) (e : EntryRec) : EntryViewT :=
  (e.part_of_speech.getD "", k,
   childView 0 (e.definitions.getD []),
   childView 0 (e.synonyms.getD []),
   childView 0 (e.antonyms.getD []))

/-- The views a list of entry records produces, order indices counting up
from `k`. -/
def recViewEnts (k : Nat) : List EntryRec → List EntryViewT
  | [] => []
  | e :: es => mkEntryView k e :: recViewEnts (k + 1) es

/-- The effect of one successful `insert_lemma_entries` call on the
id-free view: the lemma's part of speech is set if the lemma text is new
(first write wins), each listed word form is attached to this lemma if
the word text is new (first write wins), and the record's entry views are
appended to the lemma's stored entries. -/
def absApply (a : AbsDB) (lem pos : String) (wfs : List String)
    (ents : List EntryRec) : AbsDB where
  pos := fun t => if t = lem then some ((a.pos lem).getD pos) else a.pos t
  owner := fun w => if w ∈ wfs then some ((a.owner w).getD lem) else a.owner w
  ents := fun t =>
    if t = lem then some ((a.ents lem).getD [] ++ recViewEnts 0 ents)
    else a.ents t

/-- Store invariant maintained by every write and holding of the empty
store: lemma rowids are distinct (needed because words reference lemmas
by id), and every foreign key references an existing row.  These are
exactly the facts SQLite's PRIMARY KEY autoassignment and the writes'
construction guarantee. -/
def WF (db : DB) : Prop :=
  ((db.lemmas.map (fun r => r.lemma_id)).Nodup) ∧
  (∀ wr ∈ db.words, ∃ lr ∈ db.lemmas, lr.lemma_id = wr.lemma_id) ∧
  (∀ er ∈ db.entries, ∃ lr ∈ db.lemmas, lr.lemma_id = er.lemma_id) ∧
  (∀ cr ∈ db.definitions, ∃ er ∈ db.entries, er.entry_id = cr.entry_id) ∧
  (∀ cr ∈ db.synonyms, ∃ er ∈ db.entries, er.entry_id = cr.entry_id) ∧
  (∀ cr ∈ db.antonyms, ∃ er ∈ db.entries, er.entry_id = cr.entry_id)

instance (db : DB) : Decidable (WF db) := by
  unfold WF; infer_instance

/-- A result record that reconciles successfully against `pairs`: its
identifier parses to an index, its content is a parsed response object,
the index resolves to an original pair, the reported lemma matches that
pair's lemma after lowercasing (the pair's lemma is already lowercase as
read from the TSV), and all its entries carry the four required keys. -/
def GoodRec (pairs : List (String × String)) (r : ResultRecord) : Prop :=
  ∃ idx d lp,
    parseTaskIdx (r.custom_id.getD "") = some idx ∧
    r.content = some d ∧
    pairs.get? idx = some lp ∧
    pyLower (d.lemma_text.getD "") = lp.1 ∧
    ∀ e ∈ d.entries.getD [], EComplete e = true

/-- The data a good record writes: the original pair looked up at its
index, and the record's word forms and entries. -/
def recData (pairs : List (String × String)) (r : ResultRecord) :
    String × String × List String × List EntryRec :=
  (((pairs.get? ((parseTaskIdx (r.custom_id.getD "")).getD 0)).getD ("", "")).1,
   ((pairs.get? ((parseTaskIdx (r.custom_id.getD "")).getD 0)).getD ("", "")).2,
   (r.content.getD ⟨none, none, none⟩).word_forms.getD [],
   (r.content.getD ⟨none, none, none⟩).entries.getD [])

/-- The id-free effect of reconciling one good record. -/
def absApplyRec (pairs : List (String × String)) (a : AbsDB)
    (r : ResultRecord) : AbsDB :=
  absApply a (recData pairs r).1 (recData pairs r).2.1
    (recData pairs r).2.2.1 (recData pairs r).2.2.2

theorem WF_empty : WF DB.empty := by
  constructor <;> simp [DB.empty]

/- Basic facts about rowid allocation and row lookup. -/

theorem le_foldr_max {x : Nat} : ∀ {ids : List Nat}, x ∈ ids → x ≤ ids.foldr max 0
  | _ :: t, h => by
      rcases List.mem_cons.mp h with rfl | h
      · exact Nat.le_max_left _ _
      · exact Nat.le_trans (le_foldr_max h) (Nat.le_max_right _ _)

theorem mem_lt_nextId {x : Nat} {ids : List Nat} (h : x ∈ ids) : x < nextId ids :=
  Nat.lt_succ_of_le (le_foldr_max h)

theorem nextId_not_mem {ids : List Nat} : nextId ids ∉ ids :=
  fun h => Nat.lt_irrefl _ (mem_lt_nextId h)

/-- A lookup by a key whose values are distinct over the list returns the
member itself. -/
theorem find?_eq_of_nodup_key {α β : Type} [BEq β] [LawfulBEq β] {f : α → β}
    {l : List α} {x : α} (hnd : (l.map f).Nodup) (hx : x ∈ l) :
    l.find? (fun r => f r == f x) = some x := by
  induction l with
  | nil => cases hx
  | cons y t ih =>
      rcases List.mem_cons.mp hx with rfl | hx
      · simp [List.find?]
      · have hne : f y ≠ f x := by
          intro he
          have : f x ∈ t.map f := List.mem_map_of_mem f hx
          rw [← he] at this
          exact (List.nodup_cons.mp hnd).1 this
        have hnd' : (t.map f).Nodup := (List.nodup_cons.mp hnd).2
        simp only [List.find?]
        rw [show (f y == f x) = false from beq_eq_false_iff_ne.mpr hne]
        exact ih hnd' hx

/-- Distinct keys over a list separate members: two members with equal
key values are equal. -/
theorem mem_eq_of_nodup_key {α β : Type} {f : α → β} {l : List α} {x y : α}
    (hnd : (l.map f).Nodup) (hx : x ∈ l) (hy : y ∈ l) (h : f x = f y) :
    x = y :=
  List.inj_on_of_nodup_map hnd hx hy h

/- Views depend only on the relevant components of the store. -/

theorem lemmaPosView_congr {db1 db2 : DB} (h : db1.lemmas = db2.lemmas) :
    lemmaPosView db1 = lemmaPosView db2 := by
  unfold lemmaPosView; rw [h]

theorem ownerView_congr {db1 db2 : DB} (hw : db1.words = db2.words)
    (hl : db1.lemmas = db2.lemmas) : ownerView db1 = ownerView db2 := by
  unfold ownerView; rw [hw, hl]

theorem entryView_congr {db1 db2 : DB} (hd : db1.definitions = db2.definitions)
    (hs : db1.synonyms = db2.synonyms) (ha : db1.antonyms = db2.antonyms) :
    entryView db1 = entryView db2 := by
  unfold entryView; rw [hd, hs, ha]

theorem entriesView_congr {db1 db2 : DB} (hl : db1.lemmas = db2.lemmas)
    (he : db1.entries = db2.entries) (hd : db1.definitions = db2.definitions)
    (hs : db1.synonyms = db2.synonyms) (ha : db1.antonyms = db2.antonyms) :
    entriesView db1 = entriesView db2 := by
  unfold entriesView; rw [hl, he, entryView_congr hd hs ha]

/- Simulation of the lemma upsert (lines 86-88) on the id-free view. -/

theorem lemmaInsertOrIgnore_components (db : DB) (lem pos : String) :
    (lemmaInsertOrIgnore db lem pos).words = db.words ∧
    (lemmaInsertOrIgnore db lem pos).entries = db.entries ∧
    (lemmaInsertOrIgnore db lem pos).definitions = db.definitions ∧
    (lemmaInsertOrIgnore db lem pos).synonyms = db.synonyms ∧
    (lemmaInsertOrIgnore db lem pos).antonyms = db.antonyms := by
  unfold lemmaInsertOrIgnore
  split <;> simp

theorem sim_upsert (db : DB) (lem pos : String) (hwf : WF db) :
    ∃ lr : LemmaRow,
      (lemmaInsertOrIgnore db lem pos).lemmas.find? (fun r => r.lemma_text == lem)
          = some lr ∧
      lr.lemma_text = lem ∧
      WF (lemmaInsertOrIgnore db lem pos) ∧
      lemmaPosView (lemmaInsertOrIgnore db lem pos) = (fun t =>
        if t = lem then some ((lemmaPosView db lem).getD pos)
        else lemmaPosView db t) ∧
      ownerView (lemmaInsertOrIgnore db lem pos) = ownerView db ∧
      entriesView (lemmaInsertOrIgnore db lem pos) = (fun t =>
        if t = lem then some ((entriesView db lem).getD [])
        else entriesView db t) := by
  obtain ⟨hnd, hwri, heri, hdri, hsri, hari⟩ := hwf
  by_cases h : (db.lemmas.find? (fun r => r.lemma_text == lem)).isSome
  · -- the lemma text already exists: the insert is ignored
    obtain ⟨lr, hlr⟩ := Option.isSome_iff_exists.mp h
    have hdb : lemmaInsertOrIgnore db lem pos = db := by
      unfold lemmaInsertOrIgnore; rw [if_pos h]
    have htext : lr.lemma_text = lem := by
      have hp := List.find?_some hlr
      simpa using hp
    refine ⟨lr, ?_, htext, ?_, ?_, ?_, ?_⟩
    · rw [hdb]; exact hlr
    · rw [hdb]; exact ⟨hnd, hwri, heri, hdri, hsri, hari⟩
    · funext t
      rw [hdb]
      by_cases ht : t = lem
      · subst ht; simp [lemmaPosView, hlr]
      · rw [if_neg ht]
    · rw [hdb]
    · funext t
      rw [hdb]
      by_cases ht : t = lem
      · subst ht; simp [entriesView, hlr]
      · rw [if_neg ht]
  · -- new lemma text: a fresh row is appended
    have h' : db.lemmas.find? (fun r => r.lemma_text == lem) = none :=
      Option.not_isSome_iff_eq_none.mp h
    have hdb : lemmaInsertOrIgnore db lem pos = { db with lemmas :=
        db.lemmas ++ [⟨nextId (db.lemmas.map (fun r => r.lemma_id)), lem, pos⟩] } := by
      unfold lemmaInsertOrIgnore; rw [if_neg h]
    set L : LemmaRow :=
      ⟨nextId (db.lemmas.map (fun r => r.lemma_id)), lem, pos⟩ with hL
    have hfind : (db.lemmas ++ [L]).find? (fun r => r.lemma_text == lem) = some L := by
      simp [List.find?_append, h']
    refine ⟨L, ?_, rfl, ?_, ?_, ?_, ?_⟩
    · rw [hdb]; exact hfind
    · rw [hdb]
      refine ⟨?_, ?_, ?_, hdri, hsri, hari⟩
      · simp only [List.map_append, List.map_cons, List.map_nil]
        rw [List.nodup_append]
        refine ⟨hnd, List.nodup_singleton _, ?_⟩
        intro a ha hb
        simp only [List.mem_singleton] at hb
        subst hb
        exact nextId_not_mem ha
      · intro wr hwr
        obtain ⟨lr', hmem, hid⟩ := hwri wr hwr
        exact ⟨lr', List.mem_append_left _ hmem, hid⟩
      · intro er her
        obtain ⟨lr', hmem, hid⟩ := heri er her
        exact ⟨lr', List.mem_append_left _ hmem, hid⟩
    · funext t
      rw [hdb]
      by_cases ht : t = lem
      · subst ht
        simp [lemmaPosView, List.find?_append, h', hfind]
      · rw [if_neg ht]
        have hLne : (L.lemma_text == t) = false :=
          beq_eq_false_iff_ne.mpr (fun he => ht (he ▸ rfl))
        simp [lemmaPosView, List.find?_append, hLne, Option.or_none]
    · funext w
      unfold ownerView
      rw [hdb]
      simp only []
      cases hw : db.words.find? (fun r => r.word == w) with
      | none => simp
      | some wr =>
          obtain ⟨lr', hmem, hid⟩ := hwri wr (List.mem_of_find?_eq_some hw)
          have hs : (db.lemmas.find? (fun r => r.lemma_id == wr.lemma_id)).isSome :=
            List.find?_isSome.mpr ⟨lr', hmem, by simp [hid]⟩
          obtain ⟨y, hy⟩ := Option.isSome_iff_exists.mp hs
          simp [List.find?_append, hy]
    · funext t
      rw [hdb]
      by_cases ht : t = lem
      · subst ht
        have hnone : entriesView db t = none := by
          simp [entriesView, h']
        have hfilter : db.entries.filter (fun er => er.lemma_id == L.lemma_id) = [] := by
          rw [List.filter_eq_nil_iff]
          intro er her hbe
          obtain ⟨lr', hmem, hid⟩ := heri er her
          have hlt : er.lemma_id < nextId (db.lemmas.map (fun r => r.lemma_id)) := by
            apply mem_lt_nextId
            rw [← hid]
            exact List.mem_map_of_mem _ hmem
          have : er.lemma_id = L.lemma_id := eq_of_beq hbe
          rw [this] at hlt
          exact Nat.lt_irrefl _ hlt
        simp [entriesView, hfind, hfilter, hnone, h']
      · rw [if_neg ht]
        have hLne : (L.lemma_text == t) = false :=
          beq_eq_false_iff_ne.mpr (fun he => ht (he ▸ rfl))
        have hsing : List.find? (fun r => r.lemma_text == t) [L] = none := by
          simp [List.find?, hLne]
        have hev : entryView { db with lemmas := db.lemmas ++ [L] } = entryView db :=
          entryView_congr rfl rfl rfl
        unfold entriesView
        simp only [List.find?_append, hsing, Option.or_none]
        rw [hev]

/- Simulation of the word-form inserts (lines 91-92) on the id-free view. -/

theorem sim_word_insert (db : DB) (lem : String) (lr : LemmaRow) (w : String)
    (hwf : WF db)
    (hfind : db.lemmas.find? (fun r => r.lemma_text == lem) = some lr) :
    WF (wordInsertOrIgnore db w lr.lemma_id) ∧
    (wordInsertOrIgnore db w lr.lemma_id).lemmas = db.lemmas ∧
    (wordInsertOrIgnore db w lr.lemma_id).entries = db.entries ∧
    (wordInsertOrIgnore db w lr.lemma_id).definitions = db.definitions ∧
    (wordInsertOrIgnore db w lr.lemma_id).synonyms = db.synonyms ∧
    (wordInsertOrIgnore db w lr.lemma_id).antonyms = db.antonyms ∧
    ownerView (wordInsertOrIgnore db w lr.lemma_id) = (fun x =>
      if x = w then some ((ownerView db w).getD lem) else ownerView db x) := by
  obtain ⟨hnd, hwri, heri, hdri, hsri, hari⟩ := hwf
  have htext : lr.lemma_text = lem := by
    have hp := List.find?_some hfind
    simpa using hp
  by_cases h : (db.words.find? (fun r => r.word == w)).isSome
  · -- word text already stored (for some lemma): no-op
    obtain ⟨wr, hwr⟩ := Option.isSome_iff_exists.mp h
    have hdb : wordInsertOrIgnore db w lr.lemma_id = db := by
      unfold wordInsertOrIgnore; rw [if_pos h]
    rw [hdb]
    refine ⟨⟨hnd, hwri, heri, hdri, hsri, hari⟩, rfl, rfl, rfl, rfl, rfl, ?_⟩
    funext x
    by_cases hx : x = w
    · subst hx
      obtain ⟨lr', hmem, hid⟩ := hwri wr (List.mem_of_find?_eq_some hwr)
      have hs : (db.lemmas.find? (fun r => r.lemma_id == wr.lemma_id)).isSome :=
        List.find?_isSome.mpr ⟨lr', hmem, by simp [hid]⟩
      obtain ⟨y, hy⟩ := Option.isSome_iff_exists.mp hs
      simp [ownerView, hwr, hy]
    · rw [if_neg hx]
  · -- new word text: append a row attached to this lemma
    have h' : db.words.find? (fun r => r.word == w) = none :=
      Option.not_isSome_iff_eq_none.mp h
    set W : WordRow :=
      ⟨nextId (db.words.map (fun r => r.word_id)), w, lr.lemma_id⟩ with hW
    have hdb : wordInsertOrIgnore db w lr.lemma_id =
        { db with words := db.words ++ [W] } := by
      unfold wordInsertOrIgnore; rw [if_neg h]
    rw [hdb]
    refine ⟨?_, rfl, rfl, rfl, rfl, rfl, ?_⟩
    · refine ⟨hnd, ?_, heri, hdri, hsri, hari⟩
      intro wr hwr
      rcases List.mem_append.mp hwr with hwr | hwr
      · exact hwri wr hwr
      · simp only [List.mem_singleton] at hwr
        subst hwr
        exact ⟨lr, List.mem_of_find?_eq_some hfind, rfl⟩
    · funext x
      by_cases hx : x = w
      · subst hx
        have hsing : (db.words ++ [W]).find? (fun r => r.word == x) = some W := by
          simp [List.find?_append, h']
        have hidfind : db.lemmas.find? (fun r => r.lemma_id == lr.lemma_id) = some lr :=
          find?_eq_of_nodup_key hnd (List.mem_of_find?_eq_some hfind)
        simp [ownerView, hsing, hidfind, h', htext]
      · rw [if_neg hx]
        have hWne : (W.word == x) = false :=
          beq_eq_false_iff_ne.mpr (fun he => hx (he ▸ rfl))
        have hsing : List.find? (fun r => r.word == x) [W] = none := by
          simp [List.find?, hWne]
        unfold ownerView
        simp only [List.find?_append, hsing, Option.or_none]

theorem sim_words_fold (db : DB) (lem : String) (lr : LemmaRow) (wfs : List String)
    (hwf : WF db)
    (hfind : db.lemmas.find? (fun r => r.lemma_text == lem) = some lr) :
    WF (wfs.foldl (fun d w => wordInsertOrIgnore d w lr.lemma_id) db) ∧
    (wfs.foldl (fun d w => wordInsertOrIgnore d w lr.lemma_id) db).lemmas = db.lemmas ∧
    (wfs.foldl (fun d w => wordInsertOrIgnore d w lr.lemma_id) db).entries = db.entries ∧
    (wfs.foldl (fun d w => wordInsertOrIgnore d w lr.lemma_id) db).definitions = db.definitions ∧
    (wfs.foldl (fun d w => wordInsertOrIgnore d w lr.lemma_id) db).synonyms = db.synonyms ∧
    (wfs.foldl (fun d w => wordInsertOrIgnore d w lr.lemma_id) db).antonyms = db.antonyms ∧
    ownerView (wfs.foldl (fun d w => wordInsertOrIgnore d w lr.lemma_id) db) = (fun x =>
      if x ∈ wfs then some ((ownerView db x).getD lem) else ownerView db x) := by
  induction wfs generalizing db with
  | nil =>
      refine ⟨hwf, rfl, rfl, rfl, rfl, rfl, ?_⟩
      funext x
      simp
  | cons w ws ih =>
      obtain ⟨hwf1, hl1, he1, hd1, hs1, ha1, hov1⟩ :=
        sim_word_insert db lem lr w hwf hfind
      have hfind1 : (wordInsertOrIgnore db w lr.lemma_id).lemmas.find?
          (fun r => r.lemma_text == lem) = some lr := by rw [hl1]; exact hfind
      obtain ⟨hwfF, hlF, heF, hdF, hsF, haF, hovF⟩ :=
        ih (wordInsertOrIgnore db w lr.lemma_id) hwf1 hfind1
      simp only [List.foldl_cons]
      refine ⟨hwfF, by rw [hlF, hl1], by rw [heF, he1], by rw [hdF, hd1],
        by rw [hsF, hs1], by rw [haF, ha1], ?_⟩
      rw [hovF, hov1]
      funext x
      by_cases hxw : x = w
      · subst hxw
        by_cases hxs : x ∈ ws <;>
          simp [hxs, List.mem_cons, Option.getD]
      · by_cases hxs : x ∈ ws <;>
          simp [hxs, hxw, List.mem_cons]

/- Characterization of the child-insert loops (lines 102-114). -/

theorem insertChildRows_spec (eid : Nat) :
    ∀ (items : List String) (rows : List ChildRow) (j : Nat),
      ∃ tail, insertChildRows rows eid j items = rows ++ tail ∧
        (∀ c ∈ tail, c.entry_id = eid) ∧
        tail.map (fun c => (c.text, c.order_index)) = childView j items
  | [], rows, j => ⟨[], by simp [insertChildRows, childView]⟩
  | t :: ts, rows, j => by
      obtain ⟨tail, heq, hall, hmap⟩ :=
        insertChildRows_spec eid ts
          (rows ++ [⟨nextId (rows.map (fun r => r.child_id)), eid, t, j⟩]) (j + 1)
      refine ⟨⟨nextId (rows.map (fun r => r.child_id)), eid, t, j⟩ :: tail, ?_, ?_, ?_⟩
      · rw [insertChildRows, heq, List.append_assoc, List.singleton_append]
      · intro c hc
        rcases List.mem_cons.mp hc with rfl | hc
        · rfl
        · exact hall c hc
      · simp only [List.map_cons, hmap, childView]

/-- Filtering the extended child table at the fresh entry id yields
exactly the inserted items with their positions, provided no old row used
that id. -/
theorem filter_insertChildRows_self (rows : List ChildRow) (eid j : Nat)
    (items : List String)
    (hold : ∀ c ∈ rows, (c.entry_id == eid) = false) :
    ((insertChildRows rows eid j items).filter
        (fun c => c.entry_id == eid)).map (fun c => (c.text, c.order_index)) =
      childView j items := by
  obtain ⟨tail, heq, hall, hmap⟩ := insertChildRows_spec eid items rows j
  rw [heq, List.filter_append]
  have h1 : rows.filter (fun c => c.entry_id == eid) = [] :=
    List.filter_eq_nil_iff.mpr (fun c hc => by simp [hold c hc])
  have h2 : tail.filter (fun c => c.entry_id == eid) = tail :=
    List.filter_eq_self.mpr (fun c hc => by simp [hall c hc])
  rw [h1, h2, List.nil_append, hmap]

/-- Filtering the extended child table at any other entry id is
unchanged. -/
theorem filter_insertChildRows_other (rows : List ChildRow) (eid j : Nat)
    (items : List String) (e : Nat) (hne : e ≠ eid) :
    (insertChildRows rows eid j items).filter (fun c => c.entry_id == e) =
      rows.filter (fun c => c.entry_id == e) := by
  obtain ⟨tail, heq, hall, _⟩ := insertChildRows_spec eid items rows j
  rw [heq, List.filter_append]
  have h2 : tail.filter (fun c => c.entry_id == e) = [] :=
    List.filter_eq_nil_iff.mpr (fun c hc => by
      simp only [hall c hc]
      exact fun hb => hne (eq_of_beq hb).symm)
  rw [h2, List.append_nil]

/-- Every row of the extended child table is an old row or carries the
fresh entry id. -/
theorem mem_insertChildRows (rows : List ChildRow) (eid j : Nat)
    (items : List String) (c : ChildRow)
    (hc : c ∈ insertChildRows rows eid j items) :
    c ∈ rows ∨ c.entry_id = eid := by
  obtain ⟨tail, heq, hall, _⟩ := insertChildRows_spec eid items rows j
  rw [heq] at hc
  rcases List.mem_append.mp hc with hc | hc
  · exact Or.inl hc
  · exact Or.inr (hall c hc)

/- Simulation of one iteration of the entries loop (lines 95-114). -/

theorem sim_insertOneEntry (db : DB) (lem : String) (lr : LemmaRow) (k : Nat)
    (e : EntryRec) (hwf : WF db)
    (hfind : db.lemmas.find? (fun r => r.lemma_text == lem) = some lr)
    (hc : EComplete e = true) :
    ∃ db', insertOneEntry db lr.lemma_id k e = Except.ok db' ∧
      WF db' ∧
      db'.lemmas = db.lemmas ∧
      db'.words = db.words ∧
      db'.entries.length = db.entries.length + 1 ∧
      (∀ v, entriesView db lem = some v →
        entriesView db' lem = some (v ++ [mkEntryView k e])) ∧
      (∀ t, t ≠ lem → entriesView db' t = entriesView db t) := by
  obtain ⟨hnd, hwri, heri, hdri, hsri, hari⟩ := hwf
  simp only [EComplete, Bool.and_eq_true, Option.isSome_iff_exists] at hc
  obtain ⟨⟨⟨⟨p, hp⟩, ds, hds⟩, ss, hss⟩, as_, has⟩ := hc
  set eid := nextId (db.entries.map (fun r => r.entry_id)) with heid
  set E : EntryRow := ⟨eid, lr.lemma_id, p, k⟩ with hE
  set db' : DB := { db with
    entries := db.entries ++ [E],
    definitions := insertChildRows db.definitions eid 0 ds,
    synonyms := insertChildRows db.synonyms eid 0 ss,
    antonyms := insertChildRows db.antonyms eid 0 as_ } with hdb'
  have hfresh_e : ∀ er ∈ db.entries, er.entry_id ≠ eid := by
    intro er her
    have hlt : er.entry_id < eid := by
      rw [heid]
      exact mem_lt_nextId (List.mem_map_of_mem (fun r => r.entry_id) her)
    exact Nat.ne_of_lt hlt
  have hfresh_d : ∀ c ∈ db.definitions, (c.entry_id == eid) = false := by
    intro c hcm
    obtain ⟨er, hermem, herid⟩ := hdri c hcm
    exact beq_eq_false_iff_ne.mpr (herid ▸ hfresh_e er hermem)
  have hfresh_s : ∀ c ∈ db.synonyms, (c.entry_id == eid) = false := by
    intro c hcm
    obtain ⟨er, hermem, herid⟩ := hsri c hcm
    exact beq_eq_false_iff_ne.mpr (herid ▸ hfresh_e er hermem)
  have hfresh_a : ∀ c ∈ db.antonyms, (c.entry_id == eid) = false := by
    intro c hcm
    obtain ⟨er, hermem, herid⟩ := hari c hcm
    exact beq_eq_false_iff_ne.mpr (herid ▸ hfresh_e er hermem)
  have hok : insertOneEntry db lr.lemma_id k e = Except.ok db' := by
    rw [hdb']
    unfold insertOneEntry
    rw [hp, hds, hss, has]
  -- every old entry keeps its view: its children filters are untouched
  have hev : ∀ er ∈ db.entries, entryView db' er = entryView db er := by
    intro er her
    have hne : er.entry_id ≠ eid := hfresh_e er her
    show (er.part_of_speech, er.order_index,
        ((insertChildRows db.definitions eid 0 ds).filter
          (fun c => c.entry_id == er.entry_id)).map (fun c => (c.text, c.order_index)),
        ((insertChildRows db.synonyms eid 0 ss).filter
          (fun c => c.entry_id == er.entry_id)).map (fun c => (c.text, c.order_index)),
        ((insertChildRows db.antonyms eid 0 as_).filter
          (fun c => c.entry_id == er.entry_id)).map (fun c => (c.text, c.order_index)))
      = entryView db er
    rw [filter_insertChildRows_other db.definitions eid 0 ds er.entry_id hne,
        filter_insertChildRows_other db.synonyms eid 0 ss er.entry_id hne,
        filter_insertChildRows_other db.antonyms eid 0 as_ er.entry_id hne]
    rfl
  have hevE : entryView db' E = mkEntryView k e := by
    show (E.part_of_speech, E.order_index,
        ((insertChildRows db.definitions eid 0 ds).filter
          (fun c => c.entry_id == E.entry_id)).map (fun c => (c.text, c.order_index)),
        ((insertChildRows db.synonyms eid 0 ss).filter
          (fun c => c.entry_id == E.entry_id)).map (fun c => (c.text, c.order_index)),
        ((insertChildRows db.antonyms eid 0 as_).filter
          (fun c => c.entry_id == E.entry_id)).map (fun c => (c.text, c.order_index)))
      = mkEntryView k e
    have hEeid : E.entry_id = eid := rfl
    rw [hEeid,
        filter_insertChildRows_self db.definitions eid 0 ds hfresh_d,
        filter_insertChildRows_self db.synonyms eid 0 ss hfresh_s,
        filter_insertChildRows_self db.antonyms eid 0 as_ hfresh_a]
    unfold mkEntryView
    rw [hp, hds, hss, has]
    rfl
  refine ⟨db', hok, ⟨hnd, hwri, ?_, ?_, ?_, ?_⟩, rfl, rfl, by rw [hdb']; simp, ?_, ?_⟩
  · -- entries reference existing lemmas
    intro er her
    rcases List.mem_append.mp her with her | her
    · exact heri er her
    · simp only [List.mem_singleton] at her
      subst her
      exact ⟨lr, List.mem_of_find?_eq_some hfind, rfl⟩
  · -- definitions reference existing entries
    intro c hcm
    rcases mem_insertChildRows db.definitions eid 0 ds c hcm with hcm | hcm
    · obtain ⟨er, hermem, herid⟩ := hdri c hcm
      exact ⟨er, List.mem_append_left _ hermem, herid⟩
    · exact ⟨E, List.mem_append_right _ (List.mem_singleton.mpr rfl), hcm.symm⟩
  · -- synonyms reference existing entries
    intro c hcm
    rcases mem_insertChildRows db.synonyms eid 0 ss c hcm with hcm | hcm
    · obtain ⟨er, hermem, herid⟩ := hsri c hcm
      exact ⟨er, List.mem_append_left _ hermem, herid⟩
    · exact ⟨E, List.mem_append_right _ (List.mem_singleton.mpr rfl), hcm.symm⟩
  · -- antonyms reference existing entries
    intro c hcm
    rcases mem_insertChildRows db.antonyms eid 0 as_ c hcm with hcm | hcm
    · obtain ⟨er, hermem, herid⟩ := hari c hcm
      exact ⟨er, List.mem_append_left _ hermem, herid⟩
    · exact ⟨E, List.mem_append_right _ (List.mem_singleton.mpr rfl), hcm.symm⟩
  · -- the written lemma's view gains exactly this entry's view
    intro v hv
    unfold entriesView at hv
    rw [hfind] at hv
    simp only [Option.map_some', Option.some_inj] at hv
    show ((db'.lemmas.find? (fun r => r.lemma_text == lem)).map (fun lr0 =>
      (db'.entries.filter (fun er => er.lemma_id == lr0.lemma_id)).map
        (entryView db'))) = some (v ++ [mkEntryView k e])
    have hl : db'.lemmas = db.lemmas := rfl
    rw [hl, hfind]
    simp only [Option.map_some', Option.some_inj]
    rw [List.filter_append]
    have hfE : [E].filter (fun er => er.lemma_id == lr.lemma_id) = [E] := by
      simp [hE]
    rw [hfE, List.map_append]
    have h1 : (db.entries.filter (fun er => er.lemma_id == lr.lemma_id)).map
        (entryView db') = v := by
      rw [← hv]
      exact List.map_congr_left (fun er her =>
        hev er (List.mem_filter.mp her).1)
    rw [h1]
    simp [hevE]
  · -- every other lemma's view is unchanged
    intro t ht
    show ((db'.lemmas.find? (fun r => r.lemma_text == t)).map (fun lr0 =>
      (db'.entries.filter (fun er => er.lemma_id == lr0.lemma_id)).map
        (entryView db'))) = entriesView db t
    have hl : db'.lemmas = db.lemmas := rfl
    rw [hl]
    unfold entriesView
    cases hfd : db.lemmas.find? (fun r => r.lemma_text == t) with
    | none => simp
    | some lr' =>
        simp only [Option.map_some', Option.some_inj]
        have hlrtext : lr.lemma_text = lem := by
          have hq := List.find?_some hfind
          simpa using hq
        have hlrtext' : lr'.lemma_text = t := by
          have hq := List.find?_some hfd
          simpa using hq
        have hne : lr'.lemma_id ≠ lr.lemma_id := by
          intro hid
          have : lr' = lr := mem_eq_of_nodup_key hnd
            (List.mem_of_find?_eq_some hfd) (List.mem_of_find?_eq_some hfind) hid
          rw [this] at hlrtext'
          exact ht (hlrtext' ▸ hlrtext ▸ rfl)
        rw [List.filter_append]
        have hbe : (E.lemma_id == lr'.lemma_id) = false :=
          beq_eq_false_iff_ne.mpr (fun he => hne he.symm)
        have hfE : [E].filter (fun er => er.lemma_id == lr'.lemma_id) = [] := by
          simp [List.filter, hbe]
        rw [hfE, List.append_nil]
        exact List.map_congr_left (fun er her =>
          hev er (List.mem_filter.mp her).1)

theorem sim_entries_loop (lem : String) (lr : LemmaRow) :
    ∀ (ents : List EntryRec) (db : DB) (k : Nat),
      WF db →
      db.lemmas.find? (fun r => r.lemma_text == lem) = some lr →
      (∀ e ∈ ents, EComplete e = true) →
      ∃ db', insertEntriesLoop db lr.lemma_id k ents = Except.ok db' ∧
        WF db' ∧
        db'.lemmas = db.lemmas ∧
        db'.words = db.words ∧
        db'.entries.length = db.entries.length + ents.length ∧
        (∀ v, entriesView db lem = some v →
          entriesView db' lem = some (v ++ recViewEnts k ents)) ∧
        (∀ t, t ≠ lem → entriesView db' t = entriesView db t)
  | [], db, k, hwf, hfind, _ =>
      ⟨db, rfl, hwf, rfl, rfl, by simp, fun v hv => by
        simpa [recViewEnts] using hv, fun t _ => rfl⟩
  | e :: es, db, k, hwf, hfind, hc => by
      obtain ⟨db1, hok1, hwf1, hl1, hw1, hlen1, hlem1, hoth1⟩ :=
        sim_insertOneEntry db lem lr k e hwf hfind (hc e (List.mem_cons_self e es))
      have hfind1 : db1.lemmas.find? (fun r => r.lemma_text == lem) = some lr := by
        rw [hl1]; exact hfind
      obtain ⟨db', hok', hwf', hl', hw', hlen', hlem', hoth'⟩ :=
        sim_entries_loop lem lr es db1 (k + 1) hwf1 hfind1
          (fun x hx => hc x (List.mem_cons_of_mem e hx))
      refine ⟨db', ?_, hwf', by rw [hl', hl1], by rw [hw', hw1], ?_, ?_, ?_⟩
      · show insertEntriesLoop db lr.lemma_id k (e :: es) = Except.ok db'
        unfold insertEntriesLoop
        rw [hok1]
        exact hok'
      · rw [hlen', hlen1, List.length_cons]
        omega
      · intro v hv
        have h1 := hlem1 v hv
        have h2 := hlem' (v ++ [mkEntryView k e]) h1
        rw [h2, List.append_assoc, List.singleton_append]
        rfl
      · intro t ht
        rw [hoth' t ht, hoth1 t ht]

theorem sim_insert_lemma_entries (db : DB) (lem pos : String) (wfs : List String)
    (ents : List EntryRec) (hwf : WF db)
    (hc : ∀ e ∈ ents, EComplete e = true) :
    ∃ db', insert_lemma_entries_db db lem pos wfs ents = Except.ok db' ∧
      WF db' ∧
      db'.entries.length = db.entries.length + ents.length ∧
      viewOf db' = absApply (viewOf db) lem pos wfs ents := by
  obtain ⟨lr, hfind1, htext, hwf1, hpos1, hown1, hents1⟩ := sim_upsert db lem pos hwf
  obtain ⟨hcw, hce, hcd, hcs, hca⟩ := lemmaInsertOrIgnore_components db lem pos
  obtain ⟨hwf2, hl2, he2, hd2, hs2, ha2, hown2⟩ :=
    sim_words_fold (lemmaInsertOrIgnore db lem pos) lem lr wfs hwf1 hfind1
  set db1 := lemmaInsertOrIgnore db lem pos with hdb1
  set db2 := wfs.foldl (fun d w => wordInsertOrIgnore d w lr.lemma_id) db1 with hdb2
  have hfind2 : db2.lemmas.find? (fun r => r.lemma_text == lem) = some lr := by
    rw [hl2]; exact hfind1
  have hpos2 : lemmaPosView db2 = lemmaPosView db1 := lemmaPosView_congr hl2
  have hents2 : entriesView db2 = entriesView db1 :=
    entriesView_congr hl2 he2 hd2 hs2 ha2
  obtain ⟨db3, hok3, hwf3, hl3, hw3, hlen3, hlem3, hoth3⟩ :=
    sim_entries_loop lem lr ents db2 0 hwf2 hfind2 hc
  have hlook : lookupLemmaId db1 lem = some lr.lemma_id := by
    unfold lookupLemmaId
    rw [hfind1]
    rfl
  refine ⟨db3, ?_, hwf3, ?_, ?_⟩
  · have hlook2 : lookupLemmaId (lemmaInsertOrIgnore db lem pos) lem
        = some lr.lemma_id := by rw [← hdb1]; exact hlook
    unfold insert_lemma_entries_db
    rw [hlook2]
    exact hok3
  · rw [hlen3]
    have : db2.entries = db.entries := by rw [he2, hce]
    rw [this]
  · have hpos3 : lemmaPosView db3 = lemmaPosView db2 := lemmaPosView_congr hl3
    have hown3 : ownerView db3 = ownerView db2 := ownerView_congr hw3 hl3
    apply AbsDB.ext
    · -- pos component
      show lemmaPosView db3 = _
      rw [hpos3, hpos2, hpos1]
      rfl
    · -- owner component
      show ownerView db3 = _
      rw [hown3, hown2, hown1]
      rfl
    · -- entries component
      show entriesView db3 = _
      funext t
      by_cases ht : t = lem
      · subst ht
        have hv2 : entriesView db2 t = some ((entriesView db t).getD []) := by
          rw [hents2, hents1]
          simp
        rw [hlem3 ((entriesView db t).getD []) hv2]
        simp [absApply, viewOf]
      · rw [hoth3 t ht, hents2, hents1]
        simp [absApply, viewOf, ht]

/- Processing of one fully successful record, and of a stream of them. -/

theorem processLine_good (db : DB) (pairs : List (String × String))
    (t0 : Option String) (r : ResultRecord) (hwf : WF db)
    (hg : GoodRec pairs r) :
    ∃ db', processLine ⟨db, db⟩ pairs t0 (Line.record r) =
        some (⟨db', db'⟩, some (r.custom_id.getD "")) ∧
      WF db' ∧ viewOf db' = absApplyRec pairs (viewOf db) r := by
  obtain ⟨idx, d, lp, hidx, hcont, hlp, hmatch, hcomp⟩ := hg
  obtain ⟨db', hok, hwf', hlen, hview⟩ :=
    sim_insert_lemma_entries db lp.1 lp.2 (d.word_forms.getD [])
      (d.entries.getD []) hwf hcomp
  refine ⟨db', ?_, hwf', ?_⟩
  · show some (processRecord ⟨db, db⟩ pairs r) = _
    unfold processRecord
    have hbeq : (pyLower (d.lemma_text.getD "") == lp.1) = true :=
      beq_iff_eq.mpr hmatch
    simp only [hidx, hcont, hlp, hbeq, if_true]
    unfold insert_lemma_entries
    rw [hok]
  · rw [hview]
    unfold absApplyRec recData
    simp only [hidx, hcont, hlp, Option.getD_some]

theorem processLines_good (pairs : List (String × String)) :
    ∀ (recs : List ResultRecord) (db : DB) (t0 : Option String),
      WF db →
      (∀ r ∈ recs, GoodRec pairs r) →
      ∃ dbf, processLines ⟨db, db⟩ pairs t0 (recs.map Line.record) =
          RunOutcome.completed dbf ∧
        WF dbf ∧
        viewOf dbf = recs.foldl (absApplyRec pairs) (viewOf db)
  | [], db, t0, hwf, _ => ⟨db, rfl, hwf, by simp⟩
  | r :: rs, db, t0, hwf, hg => by
      obtain ⟨db1, hstep, hwf1, hview1⟩ :=
        processLine_good db pairs t0 r hwf (hg r (List.mem_cons_self r rs))
      obtain ⟨dbf, hrun, hwff, hviewf⟩ :=
        processLines_good pairs rs db1 (some (r.custom_id.getD "")) hwf1
          (fun x hx => hg x (List.mem_cons_of_mem r hx))
      refine ⟨dbf, ?_, hwff, ?_⟩
      · simp only [List.map_cons]
        unfold processLines
        rw [hstep]
        exact hrun
      · rw [List.foldl_cons, hviewf, hview1]

/- Commutation of the id-free effects of two independent records. -/

theorem absApply_comm (a : AbsDB) (lem1 pos1 lem2 pos2 : String)
    (w1 w2 : List String) (e1 e2 : List EntryRec)
    (hlem : lem1 ≠ lem2) (hw : ∀ w ∈ w1, w ∉ w2) :
    absApply (absApply a lem1 pos1 w1 e1) lem2 pos2 w2 e2 =
      absApply (absApply a lem2 pos2 w2 e2) lem1 pos1 w1 e1 := by
  have hlem' : lem2 ≠ lem1 := fun h => hlem h.symm
  apply AbsDB.ext
  · funext t
    by_cases h1 : t = lem1
    · subst h1
      simp [absApply, hlem, hlem']
    · by_cases h2 : t = lem2 <;> simp [absApply, h1, h2, hlem, hlem']
  · funext x
    by_cases h1 : x ∈ w1
    · have h2 : x ∉ w2 := hw x h1
      simp [absApply, h1, h2]
    · by_cases h2 : x ∈ w2 <;> simp [absApply, h1, h2]
  · funext t
    by_cases h1 : t = lem1
    · subst h1
      simp [absApply, hlem, hlem']
    · by_cases h2 : t = lem2 <;> simp [absApply, h1, h2, hlem, hlem']

/- Helpers for the idempotence and re-write claims. -/

/-- In a list whose keys are distinct, filtering by a member's key keeps
exactly that one element. -/
theorem filter_key_length_one {α β : Type} [BEq β] [LawfulBEq β] {f : α → β}
    {l : List α} {x : α} (hnd : (l.map f).Nodup) (hx : x ∈ l) :
    (l.filter (fun r => f r == f x)).length = 1 := by
  induction l with
  | nil => cases hx
  | cons y t ih =>
      have hnd' : (t.map f).Nodup := (List.nodup_cons.mp hnd).2
      have hhead : f y ∉ t.map f := (List.nodup_cons.mp hnd).1
      rcases List.mem_cons.mp hx with rfl | hx
      · have hrest : t.filter (fun r => f r == f x) = [] := by
          rw [List.filter_eq_nil_iff]
          intro a ha hba
          exact hhead ((show f a = f x by simpa using hba) ▸
            List.mem_map_of_mem f ha)
        simp [List.filter_cons, hrest]
      · have hne : (f y == f x) = false := by
          apply beq_eq_false_iff_ne.mpr
          intro he
          exact hhead (he ▸ List.mem_map_of_mem f hx)
        simp [List.filter_cons, hne, ih hnd' hx]

theorem lemmaInsertOrIgnore_present (db : DB) (lem pos : String)
    (h : (db.lemmas.find? (fun r => r.lemma_text == lem)).isSome) :
    lemmaInsertOrIgnore db lem pos = db := by
  unfold lemmaInsertOrIgnore
  rw [if_pos h]

theorem wordInsertOrIgnore_present (db : DB) (w : String) (lid : Nat)
    (h : (db.words.find? (fun r => r.word == w)).isSome) :
    wordInsertOrIgnore db w lid = db := by
  unfold wordInsertOrIgnore
  rw [if_pos h]

/-- When every listed word form is already stored, the word-insert loop
leaves the store unchanged. -/
theorem words_fold_present (lid : Nat) :
    ∀ (wfs : List String) (db : DB),
      (∀ w ∈ wfs, (db.words.find? (fun r => r.word == w)).isSome) →
      wfs.foldl (fun d w => wordInsertOrIgnore d w lid) db = db
  | [], db, _ => rfl
  | w :: ws, db, h => by
      have hw : wordInsertOrIgnore db w lid = db :=
        wordInsertOrIgnore_present db w lid (h w (List.mem_cons_self w ws))
      simp only [List.foldl_cons, hw]
      exact words_fold_present lid ws db
        (fun x hx => h x (List.mem_cons_of_mem w hx))

theorem upsert_fst (db : DB) (lem pos : String) :
    (upsert_lemma_record db lem pos).1 = lemmaInsertOrIgnore db lem pos := rfl

theorem upsert_snd (db : DB) (lem pos : String) :
    (upsert_lemma_record db lem pos).2 =
      lookupLemmaId (lemmaInsertOrIgnore db lem pos) lem := rfl

/-- C4: the lemma upsert (src/build.py lines 86-88) is idempotent.  In a
store whose lemma texts are distinct (the UNIQUE constraint), upserting a
text always yields an identifier (never errors), upserting the same text
again - even with a different part of speech - returns the same
identifier and leaves the store unchanged (first write wins), and the
store then holds exactly one lemma row with that text. -/
theorem claim_C4_upsert_idempotent (db : DB) (t p q : String)
    (h : (db.lemmas.map (fun r => r.lemma_text)).Nodup) :
    (upsert_lemma_record db t p).2.isSome ∧
    (upsert_lemma_record (upsert_lemma_record db t p).1 t q).2
      = (upsert_lemma_record db t p).2 ∧
    (upsert_lemma_record (upsert_lemma_record db t p).1 t q).1
      = (upsert_lemma_record db t p).1 ∧
    ((upsert_lemma_record db t p).1.lemmas.filter
      (fun r => r.lemma_text == t)).length = 1 := by
  have hpres : ∃ lr, (lemmaInsertOrIgnore db t p).lemmas.find?
      (fun r => r.lemma_text == t) = some lr := by
    by_cases h0 : (db.lemmas.find? (fun r => r.lemma_text == t)).isSome
    · obtain ⟨lr, hlr⟩ := Option.isSome_iff_exists.mp h0
      exact ⟨lr, by rw [lemmaInsertOrIgnore_present db t p h0]; exact hlr⟩
    · have h' := Option.not_isSome_iff_eq_none.mp h0
      refine ⟨⟨nextId (db.lemmas.map (fun r => r.lemma_id)), t, p⟩, ?_⟩
      unfold lemmaInsertOrIgnore
      rw [if_neg h0]
      simp [List.find?_append, h']
  obtain ⟨lr, hlr⟩ := hpres
  have hisSome : ((lemmaInsertOrIgnore db t p).lemmas.find?
      (fun r => r.lemma_text == t)).isSome := by rw [hlr]; rfl
  have hstep2 : lemmaInsertOrIgnore (lemmaInsertOrIgnore db t p) t q
      = lemmaInsertOrIgnore db t p := lemmaInsertOrIgnore_present _ t q hisSome
  refine ⟨?_, ?_, ?_, ?_⟩
  · rw [upsert_snd]
    unfold lookupLemmaId
    rw [hlr]
    rfl
  · rw [upsert_snd, upsert_fst, upsert_snd, hstep2]
  · rw [upsert_fst, upsert_fst]
    exact hstep2
  · have hmem : lr ∈ (lemmaInsertOrIgnore db t p).lemmas :=
      List.mem_of_find?_eq_some hlr
    have htext : lr.lemma_text = t := by
      have hq := List.find?_some hlr
      simpa using hq
    have hnd1 : ((lemmaInsertOrIgnore db t p).lemmas.map
        (fun r => r.lemma_text)).Nodup := by
      by_cases h0 : (db.lemmas.find? (fun r => r.lemma_text == t)).isSome
      · rw [lemmaInsertOrIgnore_present db t p h0]; exact h
      · have h' := Option.not_isSome_iff_eq_none.mp h0
        unfold lemmaInsertOrIgnore
        rw [if_neg h0]
        simp only [List.map_append, List.map_cons, List.map_nil]
        rw [List.nodup_append]
        refine ⟨h, List.nodup_singleton _, ?_⟩
        intro a ha hb
        simp only [List.mem_singleton] at hb
        subst hb
        rw [List.find?_eq_none] at h'
        obtain ⟨x, hx, hxa⟩ := List.mem_map.mp ha
        exact (h' x hx) (by simp [hxa])
    have hone := @filter_key_length_one LemmaRow String _ _
      (fun r => r.lemma_text) _ _ hnd1 hmem
    simp only [htext] at hone
    rw [upsert_fst]
    exact hone

/-- Witness for C4 at a concrete input. -/
theorem claim_C4_witness :
    ((DB.empty.lemmas.map (fun r => r.lemma_text)).Nodup) ∧
    ((upsert_lemma_record DB.empty "run" "v").2.isSome ∧
      (upsert_lemma_record (upsert_lemma_record DB.empty "run" "v").1 "run" "n").2
        = (upsert_lemma_record DB.empty "run" "v").2 ∧
      (upsert_lemma_record (upsert_lemma_record DB.empty "run" "v").1 "run" "n").1
        = (upsert_lemma_record DB.empty "run" "v").1 ∧
      ((upsert_lemma_record DB.empty "run" "v").1.lemmas.filter
        (fun r => r.lemma_text == "run")).length = 1) :=
  ⟨by decide, claim_C4_upsert_idempotent DB.empty "run" "v" "n" (by decide)⟩

/-- C7: word-form attachment (src/build.py lines 91-92, words.word
UNIQUE) is first-writer-wins with global uniqueness: if the word text is
already stored - attached to any lemma - a later attach attempt with any
other lemma id is a no-op: the store is unchanged (no error, no second
row) and the word stays attached to the lemma that first claimed it. -/
theorem claim_C7_word_first_writer_wins (db : DB) (w : String) (lid2 : Nat)
    (h : (db.words.find? (fun r => r.word == w)).isSome) :
    wordInsertOrIgnore db w lid2 = db ∧
    ownerView (wordInsertOrIgnore db w lid2) w = ownerView db w := by
  have hdb : wordInsertOrIgnore db w lid2 = db :=
    wordInsertOrIgnore_present db w lid2 h
  exact ⟨hdb, by rw [hdb]⟩

/-- Witness for C7 at a concrete input: "ran" is attached to lemma 1; an
attach attempt for lemma 7 changes nothing. -/
theorem claim_C7_witness :
    ((⟨[⟨1, "run", "v"⟩], [⟨1, "ran", 1⟩], [], [], [], []⟩ :
        DB).words.find? (fun r => r.word == "ran")).isSome ∧
    (wordInsertOrIgnore ⟨[⟨1, "run", "v"⟩], [⟨1, "ran", 1⟩], [], [], [], []⟩
        "ran" 7 = ⟨[⟨1, "run", "v"⟩], [⟨1, "ran", 1⟩], [], [], [], []⟩ ∧
      ownerView (wordInsertOrIgnore
          ⟨[⟨1, "run", "v"⟩], [⟨1, "ran", 1⟩], [], [], [], []⟩ "ran" 7) "ran"
        = ownerView ⟨[⟨1, "run", "v"⟩], [⟨1, "ran", 1⟩], [], [], [], []⟩ "ran") :=
  ⟨by decide, claim_C7_word_first_writer_wins
    ⟨[⟨1, "run", "v"⟩], [⟨1, "ran", 1⟩], [], [], [], []⟩ "ran" 7 (by decide)⟩

/-- C6: when a result record's reported lemma differs case-insensitively
from the original pair looked up at the record's index (the pair's lemma
being lowercase, as the TSV read produces it), reconciliation performs
zero database writes for that record: the connection (committed and
pending store alike) is returned unchanged and the loop continues with
the next line; src/build.py lines 258-262. -/
theorem claim_C6_mismatch_no_writes (conn : Conn)
    (pairs : List (String × String)) (t0 : Option String)
    (r : ResultRecord) (idx : Nat) (d : ApiData) (lp : String × String)
    (hidx : parseTaskIdx (r.custom_id.getD "") = some idx)
    (hcont : r.content = some d)
    (hlp : pairs.get? idx = some lp)
    (hlow : pyLower lp.1 = lp.1)
    (hmis : pyLower (d.lemma_text.getD "") ≠ pyLower lp.1) :
    processLine conn pairs t0 (Line.record r)
      = some (conn, some (r.custom_id.getD "")) := by
  rw [hlow] at hmis
  have hbeq : (pyLower (d.lemma_text.getD "") == lp.1) = false :=
    beq_eq_false_iff_ne.mpr hmis
  show some (processRecord conn pairs r) = _
  unfold processRecord
  simp only [hidx, hcont, hlp, hbeq]
  simp

/-- Witness for C6 at a concrete input: the response says "ran" but the
original pair at index 0 is ("run","v"). -/
theorem claim_C6_witness :
    parseTaskIdx ((some "task-0" : Option String).getD "") = some 0 ∧
    (⟨some "task-0", some ⟨some "ran", some ["x"], some []⟩⟩ :
        ResultRecord).content = some ⟨some "ran", some ["x"], some []⟩ ∧
    ([("run", "v")].get? 0 = some ("run", "v")) ∧
    pyLower "run" = "run" ∧
    pyLower ((some "ran" : Option String).getD "") ≠ pyLower "run" ∧
    processLine ⟨DB.empty, DB.empty⟩ [("run", "v")] none
        (Line.record ⟨some "task-0", some ⟨some "ran", some ["x"], some []⟩⟩)
      = some (⟨DB.empty, DB.empty⟩, some "task-0") :=
  ⟨by decide, rfl, rfl, by decide, by decide,
    claim_C6_mismatch_no_writes ⟨DB.empty, DB.empty⟩ [("run", "v")] none
      ⟨some "task-0", some ⟨some "ran", some ["x"], some []⟩⟩ 0
      ⟨some "ran", some ["x"], some []⟩ ("run", "v")
      (by decide) rfl rfl (by decide) (by decide)⟩

/-- C10: in both submit and process, an input data row with fewer than
two tab-separated fields is silently dropped by the shared reading
expression (lines 163 and 238): deleting such a row changes neither the
extracted pair list nor the outcome of submit_batch or process_batch,
while a row with at least two fields contributes, in order, its first
two fields trimmed and lowercased. -/
theorem claim_C10_short_rows_dropped :
    (∀ (pre post : List (List String)) (row : List String), row.length < 2 →
      readLemmaPairs (pre ++ row :: post) = readLemmaPairs (pre ++ post)) ∧
    (∀ (row : List String) (rows : List (List String)), 2 ≤ row.length →
      readLemmaPairs (row :: rows) =
        (pyLower (pyStrip (row.getD 0 "")), pyLower (pyStrip (row.getD 1 ""))) ::
          readLemmaPairs rows) ∧
    (∀ (hdr : List String) (pre post : List (List String))
        (row : List String) (db0 : DB) (lines : List Line), row.length < 2 →
      submit_batch (TsvFile.present (hdr :: (pre ++ row :: post))) =
        submit_batch (TsvFile.present (hdr :: (pre ++ post))) ∧
      process_batch (TsvFile.present (hdr :: (pre ++ row :: post))) db0 lines =
        process_batch (TsvFile.present (hdr :: (pre ++ post))) db0 lines) := by
  have hdec : ∀ row : List String, row.length < 2 →
      (decide (2 ≤ row.length)) = false := by
    intro row hlen
    simp only [decide_eq_false_iff_not]
    omega
  have hdel : ∀ (pre post : List (List String)) (row : List String),
      row.length < 2 →
      readLemmaPairs (pre ++ row :: post) = readLemmaPairs (pre ++ post) := by
    intro pre post row hlen
    unfold readLemmaPairs
    rw [List.filter_append, List.filter_append, List.filter_cons, hdec row hlen]
    simp
  refine ⟨hdel, ?_, ?_⟩
  · intro row rows hlen
    unfold readLemmaPairs
    rw [List.filter_cons]
    have : (decide (2 ≤ row.length)) = true := by simpa using hlen
    rw [this]
    simp
  · intro hdr pre post row db0 lines hlen
    constructor
    · simp only [submit_batch]
      rw [hdel pre post row hlen]
    · simp only [process_batch]
      rw [hdel pre post row hlen]

/-- Witness for C10 at concrete inputs: the one-field row ["x"] is
dropped everywhere; the row ["Run ", " V"] yields ("run","v"). -/
theorem claim_C10_witness :
    ((["x"] : List String).length < 2 ∧
      readLemmaPairs ([] ++ ["x"] :: [["run", "v"]]) =
        readLemmaPairs ([] ++ [["run", "v"]])) ∧
    ((2 ≤ (["Run ", " V"] : List String).length) ∧
      readLemmaPairs (["Run ", " V"] :: []) = ("run", "v") :: readLemmaPairs []) ∧
    (submit_batch (TsvFile.present (["lemma", "pos"] :: ([] ++ ["x"] :: []))) =
      submit_batch (TsvFile.present (["lemma", "pos"] :: ([] ++ []))) ∧
    process_batch (TsvFile.present (["lemma", "pos"] :: ([] ++ ["x"] :: [])))
        DB.empty [] =
      process_batch (TsvFile.present (["lemma", "pos"] :: ([] ++ []))) DB.empty []) :=
  ⟨⟨by decide, claim_C10_short_rows_dropped.1 [] [["run", "v"]] ["x"] (by decide)⟩,
   ⟨by decide, by
      have hq := claim_C10_short_rows_dropped.2.1 ["Run ", " V"] [] (by decide)
      simpa using hq⟩,
   claim_C10_short_rows_dropped.2.2 ["lemma", "pos"] [] [] ["x"] DB.empty []
     (by decide)⟩

/-- C9 counterexample: a present input file whose only row is the header
contains no data rows, yet submit_batch still reaches the upload and
batch-creation calls (with an empty task list), refuting "no upload is
made and no batch job is created". -/
theorem claim_C9_counterexample :
    submit_batch (TsvFile.present [["lemma", "part_of_speech"]]) =
      SubmitOutcome.submitted [] ∧
    (submit_batch (TsvFile.present [["lemma", "part_of_speech"]])).makesNetworkCalls
      = true := ⟨rfl, rfl⟩

/-- C9 amended: if the input file is absent, submission fails fast
(printed error, exit 1) before any network call; a file with no rows at
all crashes on the header read, also before any network call; but a
present file whose data rows yield no pairs still makes the upload and
batch-creation network calls, submitting an empty task list. -/
theorem claim_C9_amended (hdr : List String) (rows : List (List String))
    (hempty : readLemmaPairs rows = []) :
    (submit_batch TsvFile.absent = SubmitOutcome.fileError ∧
      (submit_batch TsvFile.absent).makesNetworkCalls = false) ∧
    (submit_batch (TsvFile.present []) = SubmitOutcome.headerError ∧
      (submit_batch (TsvFile.present [])).makesNetworkCalls = false) ∧
    submit_batch (TsvFile.present (hdr :: rows)) = SubmitOutcome.submitted [] := by
  refine ⟨⟨rfl, rfl⟩, ⟨rfl, rfl⟩, ?_⟩
  simp only [submit_batch]
  rw [hempty]
  rfl

/-- Witness for the amended C9 at a concrete input: a header plus one
short row yields no pairs, and submission still runs with zero tasks. -/
theorem claim_C9_amended_witness :
    readLemmaPairs [["x"]] = [] ∧
    ((submit_batch TsvFile.absent = SubmitOutcome.fileError ∧
        (submit_batch TsvFile.absent).makesNetworkCalls = false) ∧
      (submit_batch (TsvFile.present []) = SubmitOutcome.headerError ∧
        (submit_batch (TsvFile.present [])).makesNetworkCalls = false) ∧
      submit_batch (TsvFile.present (["lemma", "pos"] :: [["x"]])) =
        SubmitOutcome.submitted []) :=
  ⟨rfl, claim_C9_amended ["lemma", "pos"] [["x"]] rfl⟩

/-- C2 (code bug demonstration): per-lemma writes are not atomic.  Input
pairs ("a","n"),("b","n"); the result for task-0 has an entry missing the
"synonyms" key, so its write raises after inserting lemma "a", its entry
row and one definition row; nothing is committed and the exception is
caught.  The next record ("b") succeeds, and its `conn.commit()` also
commits the pending partial rows of "a": the finished store contains
lemma "a"'s entry row and definition row but no synonym or antonym rows -
a partial per-lemma write was persisted, contradicting the claim that
after a failing call none of that lemma's rows are stored. -/
theorem claim_C2_incomplete_write_persisted :
    (processRun DB.empty [("a", "n"), ("b", "n")]
        [Line.record ⟨some "task-0", some ⟨some "a", some [],
            some [⟨some "n", some ["d1"], none, none⟩]⟩⟩,
         Line.record ⟨some "task-1", some ⟨some "b", some [], some []⟩⟩]).isAborted
      = false ∧
    ((processRun DB.empty [("a", "n"), ("b", "n")]
        [Line.record ⟨some "task-0", some ⟨some "a", some [],
            some [⟨some "n", some ["d1"], none, none⟩]⟩⟩,
         Line.record ⟨some "task-1", some ⟨some "b", some [], some []⟩⟩]).storedDb.lemmas.map
      (fun r => r.lemma_text)) = ["a", "b"] ∧
    ((processRun DB.empty [("a", "n"), ("b", "n")]
        [Line.record ⟨some "task-0", some ⟨some "a", some [],
            some [⟨some "n", some ["d1"], none, none⟩]⟩⟩,
         Line.record ⟨some "task-1", some ⟨some "b", some [], some []⟩⟩]).storedDb.entries.map
      (fun er => (er.lemma_id, er.order_index))) = [(1, 0)] ∧
    ((processRun DB.empty [("a", "n"), ("b", "n")]
        [Line.record ⟨some "task-0", some ⟨some "a", some [],
            some [⟨some "n", some ["d1"], none, none⟩]⟩⟩,
         Line.record ⟨some "task-1", some ⟨some "b", some [], some []⟩⟩]).storedDb.definitions.map
      (fun c => c.text)) = ["d1"] ∧
    (processRun DB.empty [("a", "n"), ("b", "n")]
        [Line.record ⟨some "task-0", some ⟨some "a", some [],
            some [⟨some "n", some ["d1"], none, none⟩]⟩⟩,
         Line.record ⟨some "task-1", some ⟨some "b", some [], some []⟩⟩]).storedDb.synonyms
      = [] ∧
    (processRun DB.empty [("a", "n"), ("b", "n")]
        [Line.record ⟨some "task-0", some ⟨some "a", some [],
            some [⟨some "n", some ["d1"], none, none⟩]⟩⟩,
         Line.record ⟨some "task-1", some ⟨some "b", some [], some []⟩⟩]).storedDb.antonyms
      = [] := by
  refine ⟨?_, ?_, ?_, ?_, ?_, ?_⟩ <;> decide

/-- C3 (code bug demonstration): one bad record can abort the batch.
When the FIRST result line is unparsable JSON, the per-line handler's
diagnostic reads the never-assigned variable `task_id` and raises
UnboundLocalError, which nothing catches: the run aborts with a nonzero
exit status and the following valid record is never persisted.  The same
two lines in the other order complete normally: the bad line is then
skipped (task_id still holds the previous value) and the valid record is
stored. -/
theorem claim_C3_first_line_aborts :
    (processRun DB.empty [("run", "v")]
        [Line.badJson,
         Line.record ⟨some "task-0", some ⟨some "run", some ["runs"],
            some [⟨some "v", some ["move fast"], some ["sprint"],
              some ["walk"]⟩]⟩⟩]).isAborted = true ∧
    (processRun DB.empty [("run", "v")]
        [Line.badJson,
         Line.record ⟨some "task-0", some ⟨some "run", some ["runs"],
            some [⟨some "v", some ["move fast"], some ["sprint"],
              some ["walk"]⟩]⟩⟩]).storedDb = DB.empty ∧
    (processRun DB.empty [("run", "v")]
        [Line.record ⟨some "task-0", some ⟨some "run", some ["runs"],
            some [⟨some "v", some ["move fast"], some ["sprint"],
              some ["walk"]⟩]⟩⟩,
         Line.badJson]).isAborted = false ∧
    ((processRun DB.empty [("run", "v")]
        [Line.record ⟨some "task-0", some ⟨some "run", some ["runs"],
            some [⟨some "v", some ["move fast"], some ["sprint"],
              some ["walk"]⟩]⟩⟩,
         Line.badJson]).storedDb.lemmas.map (fun r => r.lemma_text)) = ["run"] := by
  refine ⟨?_, ?_, ?_, ?_⟩ <;> decide

/-- C5 counterexample: reconciling the same successful record twice does
not leave the store identical to reconciling it once - entry, definition,
synonym and antonym rows carry no uniqueness constraint and are inserted
again, duplicating the entry (2 entry rows instead of 1). -/
theorem claim_C5_counterexample :
    (processRun DB.empty [("run", "v")]
        [Line.record ⟨some "task-0", some ⟨some "run", some ["runs"],
            some [⟨some "v", some ["move fast"], some ["sprint"],
              some ["walk"]⟩]⟩⟩,
         Line.record ⟨some "task-0", some ⟨some "run", some ["runs"],
            some [⟨some "v", some ["move fast"], some ["sprint"],
              some ["walk"]⟩]⟩⟩]).storedDb.entries.length = 2 ∧
    (processRun DB.empty [("run", "v")]
        [Line.record ⟨some "task-0", some ⟨some "run", some ["runs"],
            some [⟨some "v", some ["move fast"], some ["sprint"],
              some ["walk"]⟩]⟩⟩]).storedDb.entries.length = 1 ∧
    (processRun DB.empty [("run", "v")]
        [Line.record ⟨some "task-0", some ⟨some "run", some ["runs"],
            some [⟨some "v", some ["move fast"], some ["sprint"],
              some ["walk"]⟩]⟩⟩,
         Line.record ⟨some "task-0", some ⟨some "run", some ["runs"],
            some [⟨some "v", some ["move fast"], some ["sprint"],
              some ["walk"]⟩]⟩⟩]).storedDb ≠
      (processRun DB.empty [("run", "v")]
        [Line.record ⟨some "task-0", some ⟨some "run", some ["runs"],
            some [⟨some "v", some ["move fast"], some ["sprint"],
              some ["walk"]⟩]⟩⟩]).storedDb := by
  refine ⟨?_, ?_, ?_⟩ <;> decide

/-- C5 amended: only the lemma and word rows are deduplicated by natural
identity - writing the same successful record's data twice leaves the
lemmas and words tables unchanged the second time, but appends the
record's entries (and with them their children) again: the entries table
grows by the record's entry count on every repeat. -/
theorem claim_C5_amended (db : DB) (lem pos : String) (wfs : List String)
    (ents : List EntryRec) (hwf : WF db)
    (hc : ∀ e ∈ ents, EComplete e = true) :
    ∃ db1 db2,
      insert_lemma_entries_db db lem pos wfs ents = Except.ok db1 ∧
      insert_lemma_entries_db db1 lem pos wfs ents = Except.ok db2 ∧
      db2.lemmas = db1.lemmas ∧
      db2.words = db1.words ∧
      db2.entries.length = db1.entries.length + ents.length := by
  obtain ⟨db1, hok1, hwf1, hlen1, hview1⟩ :=
    sim_insert_lemma_entries db lem pos wfs ents hwf hc
  have hposv : lemmaPosView db1 lem = some ((lemmaPosView db lem).getD pos) := by
    have h1 := congrFun (congrArg AbsDB.pos hview1) lem
    simpa [viewOf, absApply] using h1
  have hfind1 : ∃ lr, db1.lemmas.find? (fun r => r.lemma_text == lem) = some lr := by
    unfold lemmaPosView at hposv
    cases hfd : db1.lemmas.find? (fun r => r.lemma_text == lem) with
    | none => rw [hfd] at hposv; cases hposv
    | some lr => exact ⟨lr, rfl⟩
  obtain ⟨lr, hlr⟩ := hfind1
  have hstep1 : lemmaInsertOrIgnore db1 lem pos = db1 :=
    lemmaInsertOrIgnore_present db1 lem pos (by rw [hlr]; rfl)
  have hwordp : ∀ w ∈ wfs, (db1.words.find? (fun r => r.word == w)).isSome := by
    intro w hw
    have h1 := congrFun (congrArg AbsDB.owner hview1) w
    simp only [viewOf, absApply, if_pos hw] at h1
    unfold ownerView at h1
    cases hfd : db1.words.find? (fun r => r.word == w) with
    | none => rw [hfd] at h1; cases h1
    | some _ => rfl
  have hfold : wfs.foldl (fun d w => wordInsertOrIgnore d w lr.lemma_id) db1 = db1 :=
    words_fold_present lr.lemma_id wfs db1 hwordp
  obtain ⟨db2, hok2, hwf2, hl2, hw2, hlen2, _, _⟩ :=
    sim_entries_loop lem lr ents db1 0 hwf1 hlr hc
  refine ⟨db1, db2, hok1, ?_, by rw [hl2], by rw [hw2], by rw [hlen2]⟩
  unfold insert_lemma_entries_db
  rw [hstep1]
  have hlook : lookupLemmaId db1 lem = some lr.lemma_id := by
    unfold lookupLemmaId
    rw [hlr]
    rfl
  rw [hlook]
  show insertEntriesLoop
    (wfs.foldl (fun d w => wordInsertOrIgnore d w lr.lemma_id) db1)
    lr.lemma_id 0 ents = Except.ok db2
  rw [hfold]
  exact hok2

/-- Witness for the amended C5 at a concrete input. -/
theorem claim_C5_amended_witness :
    WF DB.empty ∧
    (∀ e ∈ [(⟨some "v", some ["move fast"], some ["sprint"], some ["walk"]⟩ :
        EntryRec)], EComplete e = true) ∧
    (∃ db1 db2,
      insert_lemma_entries_db DB.empty "run" "v" ["runs"]
          [⟨some "v", some ["move fast"], some ["sprint"], some ["walk"]⟩]
        = Except.ok db1 ∧
      insert_lemma_entries_db db1 "run" "v" ["runs"]
          [⟨some "v", some ["move fast"], some ["sprint"], some ["walk"]⟩]
        = Except.ok db2 ∧
      db2.lemmas = db1.lemmas ∧
      db2.words = db1.words ∧
      db2.entries.length = db1.entries.length + 1) :=
  ⟨by decide, by decide,
    claim_C5_amended DB.empty "run" "v" ["runs"]
      [⟨some "v", some ["move fast"], some ["sprint"], some ["walk"]⟩]
      (by decide) (by decide)⟩

/-- Positions in the view an entry-record list produces: the i-th entry
view carries order index k + i. -/
theorem recViewEnts_get? :
    ∀ (ents : List EntryRec) (k i : Nat) (hi : i < ents.length),
      (recViewEnts k ents).get? i = some (mkEntryView (k + i) (ents.get ⟨i, hi⟩))
  | e :: es, k, 0, _ => by simp [recViewEnts]
  | e :: es, k, i + 1, hi => by
      have hi' : i < es.length := by
        simpa [List.length_cons, Nat.succ_lt_succ_iff] using hi
      have hrec := recViewEnts_get? es (k + 1) i hi'
      simp only [recViewEnts, List.get?_cons_succ, hrec]
      have : k + 1 + i = k + (i + 1) := by omega
      rw [this]
      rfl

/-- Positions in a child view: the i-th pair carries order index j + i. -/
theorem childView_get? :
    ∀ (items : List String) (j i : Nat) (hi : i < items.length),
      (childView j items).get? i = some (items.get ⟨i, hi⟩, j + i)
  | t :: ts, j, 0, _ => by simp [childView]
  | t :: ts, j, i + 1, hi => by
      have hi' : i < ts.length := by
        simpa [List.length_cons, Nat.succ_lt_succ_iff] using hi
      have hrec := childView_get? ts (j + 1) i hi'
      simp only [childView, List.get?_cons_succ, hrec]
      have : j + 1 + i = j + (i + 1) := by omega
      rw [this]
      rfl

/-- C8: after a successful insert_lemma_entries write, the stored view of
the written lemma extends its previous entries by exactly the input
entries in order, with each entry's stored order index equal to its
zero-based position in the input list (recViewEnts_get?) and each
definition/synonym/antonym's stored order index equal to its position
within its own list in its entry (childView_get?, via mkEntryView). -/
theorem claim_C8_order_indices (db : DB) (lem pos : String)
    (wfs : List String) (ents : List EntryRec) (hwf : WF db)
    (hc : ∀ e ∈ ents, EComplete e = true) :
    ∃ db', insert_lemma_entries_db db lem pos wfs ents = Except.ok db' ∧
      entriesView db' lem =
        some ((entriesView db lem).getD [] ++ recViewEnts 0 ents) ∧
      (∀ (i : Nat) (hi : i < ents.length),
        (recViewEnts 0 ents).get? i = some (mkEntryView i (ents.get ⟨i, hi⟩))) := by
  obtain ⟨db', hok, hwf', hlen, hview⟩ :=
    sim_insert_lemma_entries db lem pos wfs ents hwf hc
  refine ⟨db', hok, ?_, ?_⟩
  · have h1 := congrFun (congrArg AbsDB.ents hview) lem
    simpa [viewOf, absApply] using h1
  · intro i hi
    have h := recViewEnts_get? ents 0 i hi
    simpa using h

/-- Witness for C8 at a concrete input: one entry with one definition,
synonym and antonym each; the stored view places it at order index 0. -/
theorem claim_C8_witness :
    WF DB.empty ∧
    (∀ e ∈ [(⟨some "v", some ["move fast"], some ["sprint"], some ["walk"]⟩ :
        EntryRec)], EComplete e = true) ∧
    (∃ db', insert_lemma_entries_db DB.empty "run" "v" ["runs"]
          [⟨some "v", some ["move fast"], some ["sprint"], some ["walk"]⟩]
        = Except.ok db' ∧
      entriesView db' "run" =
        some ((entriesView DB.empty "run").getD [] ++
          recViewEnts 0 [⟨some "v", some ["move fast"], some ["sprint"],
            some ["walk"]⟩]) ∧
      (∀ (i : Nat) (hi : i < ([(⟨some "v", some ["move fast"], some ["sprint"],
            some ["walk"]⟩ : EntryRec)]).length),
        (recViewEnts 0 [(⟨some "v", some ["move fast"], some ["sprint"],
            some ["walk"]⟩ : EntryRec)]).get? i =
          some (mkEntryView i (([(⟨some "v", some ["move fast"], some ["sprint"],
            some ["walk"]⟩ : EntryRec)]).get ⟨i, hi⟩)))) :=
  ⟨by decide, by decide,
    claim_C8_order_indices DB.empty "run" "v" ["runs"]
      [⟨some "v", some ["move fast"], some ["sprint"], some ["walk"]⟩]
      (by decide) (by decide)⟩

/-- C1 counterexample: reconciliation is NOT order-insensitive as stated.
Submission pairs ("run","v"),("cat","n"); both result records are valid
and correctly indexed (task-0, task-1) but share the word form "ran".
Word attachment is first-writer-wins, so processing the records in
submission order attaches "ran" to "run", while the scrambled order
attaches it to "cat": the stored data differ - even ignoring surrogate
row ids - and the raw stores differ too. -/
theorem claim_C1_counterexample :
    ownerView ((processRun DB.empty [("run", "v"), ("cat", "n")]
        [Line.record ⟨some "task-0", some ⟨some "run", some ["ran"], some []⟩⟩,
         Line.record ⟨some "task-1", some ⟨some "cat", some ["ran"], some []⟩⟩]).storedDb)
      "ran" = some "run" ∧
    ownerView ((processRun DB.empty [("run", "v"), ("cat", "n")]
        [Line.record ⟨some "task-1", some ⟨some "cat", some ["ran"], some []⟩⟩,
         Line.record ⟨some "task-0", some ⟨some "run", some ["ran"], some []⟩⟩]).storedDb)
      "ran" = some "cat" ∧
    (processRun DB.empty [("run", "v"), ("cat", "n")]
        [Line.record ⟨some "task-0", some ⟨some "run", some ["ran"], some []⟩⟩,
         Line.record ⟨some "task-1", some ⟨some "cat", some ["ran"], some []⟩⟩]).storedDb ≠
      (processRun DB.empty [("run", "v"), ("cat", "n")]
        [Line.record ⟨some "task-1", some ⟨some "cat", some ["ran"], some []⟩⟩,
         Line.record ⟨some "task-0", some ⟨some "run", some ["ran"], some []⟩⟩]).storedDb := by
  refine ⟨?_, ?_, ?_⟩ <;> decide

/-- C1 amended: reconciliation is order-insensitive up to surrogate row
identifiers, for non-interfering streams.  Starting from an empty store,
take a stream of result records that all reconcile successfully (their
identifiers decode to indices into the original pairs, contents parse,
lemmas validate, entries are complete), and in which any two distinct
records target different lemma texts and disjoint word-form sets.
Processing the stream and any permutation of it both complete, and the
resulting stores carry identical data up to row ids: the same
lemma-to-part-of-speech assignment, the same word-to-lemma attachments,
and the same per-lemma entry lists with their ordered children
(viewOf).  The counterexample shows each proviso is needed: with a
shared word form the attachments differ, and raw stores differ in any
case because rowids follow insertion order. -/
theorem claim_C1_amended (pairs : List (String × String))
    (recs1 recs2 : List ResultRecord)
    (hperm : recs1.Perm recs2)
    (hgood : ∀ r ∈ recs1, GoodRec pairs r)
    (hsep : ∀ x ∈ recs1, ∀ y ∈ recs1, x = y ∨
      ((recData pairs x).1 ≠ (recData pairs y).1 ∧
        ∀ w ∈ (recData pairs x).2.2.1, w ∉ (recData pairs y).2.2.1)) :
    ∃ db1 db2,
      processRun DB.empty pairs (recs1.map Line.record)
        = RunOutcome.completed db1 ∧
      processRun DB.empty pairs (recs2.map Line.record)
        = RunOutcome.completed db2 ∧
      viewOf db1 = viewOf db2 := by
  obtain ⟨db1, h1, hwf1, hv1⟩ :=
    processLines_good pairs recs1 DB.empty none WF_empty hgood
  have hgood2 : ∀ r ∈ recs2, GoodRec pairs r :=
    fun r hr => hgood r (hperm.mem_iff.mpr hr)
  obtain ⟨db2, h2, hwf2, hv2⟩ :=
    processLines_good pairs recs2 DB.empty none WF_empty hgood2
  refine ⟨db1, db2, h1, h2, ?_⟩
  rw [hv1, hv2]
  have comm : ∀ x ∈ recs1, ∀ y ∈ recs1, ∀ (z : AbsDB),
      absApplyRec pairs (absApplyRec pairs z x) y =
        absApplyRec pairs (absApplyRec pairs z y) x := by
    intro x hx y hy z
    rcases hsep x hx y hy with rfl | ⟨hne, hdisj⟩
    · rfl
    · unfold absApplyRec
      exact absApply_comm z _ _ _ _ _ _ _ _ hne hdisj
  exact hperm.foldl_eq' comm (viewOf DB.empty)

/-- Witness for the amended C1 at a concrete input: the spec's scenario
with disjoint word forms, processed in submission order and scrambled. -/
theorem claim_C1_amended_witness :
    ∃ db1 db2,
      processRun DB.empty [("run", "v"), ("cat", "n")]
          ([⟨some "task-0", some ⟨some "run", some ["runs"],
              some [⟨some "v", some ["move fast"], some ["sprint"],
                some ["walk"]⟩]⟩⟩,
            ⟨some "task-1", some ⟨some "cat", some ["cats"],
              some [⟨some "n", some ["feline"], some ["kitty"], some []⟩]⟩⟩].map
            Line.record)
        = RunOutcome.completed db1 ∧
      processRun DB.empty [("run", "v"), ("cat", "n")]
          ([⟨some "task-1", some ⟨some "cat", some ["cats"],
              some [⟨some "n", some ["feline"], some ["kitty"], some []⟩]⟩⟩,
            ⟨some "task-0", some ⟨some "run", some ["runs"],
              some [⟨some "v", some ["move fast"], some ["sprint"],
                some ["walk"]⟩]⟩⟩].map Line.record)
        = RunOutcome.completed db2 ∧
      viewOf db1 = viewOf db2 :=
  claim_C1_amended [("run", "v"), ("cat", "n")]
    [⟨some "task-0", some ⟨some "run", some ["runs"],
        some [⟨some "v", some ["move fast"], some ["sprint"], some ["walk"]⟩]⟩⟩,
     ⟨some "task-1", some ⟨some "cat", some ["cats"],
        some [⟨some "n", some ["feline"], some ["kitty"], some []⟩]⟩⟩]
    [⟨some "task-1", some ⟨some "cat", some ["cats"],
        some [⟨some "n", some ["feline"], some ["kitty"], some []⟩]⟩⟩,
     ⟨some "task-0", some ⟨some "run", some ["runs"],
        some [⟨some "v", some ["move fast"], some ["sprint"], some ["walk"]⟩]⟩⟩]
    (by decide)
    (by
      intro r hr
      simp only [List.mem_cons, List.not_mem_nil, or_false] at hr
      rcases hr with rfl | rfl
      · exact ⟨0, ⟨some "run", some ["runs"],
          some [⟨some "v", some ["move fast"], some ["sprint"], some ["walk"]⟩]⟩,
          ("run", "v"), by decide, rfl, rfl, by decide, by decide⟩
      · exact ⟨1, ⟨some "cat", some ["cats"],
          some [⟨some "n", some ["feline"], some ["kitty"], some []⟩]⟩,
          ("cat", "n"), by decide, rfl, rfl, by decide, by decide⟩)
    (by
      intro x hx y hy
      simp only [List.mem_cons, List.not_mem_nil, or_false] at hx hy
      rcases hx with rfl | rfl <;> rcases hy with rfl | rfl
      · exact Or.inl rfl
      · exact Or.inr ⟨by decide, by decide⟩
      · exact Or.inr ⟨by decide, by decide⟩
      · exact Or.inl rfl)
